import Mathlib

/-!
Verification development for the heuristic risk-text extractor of the
RiskmanagementAgent repository (frontend `App.tsx`:
`parseRisksFromLLMResponse` and its helpers).  The JavaScript string and
regular-expression primitives that the extractor uses are embedded as
executable Lean functions over `List Char`, each one specialised to the
concrete pattern appearing in the source.
-/

set_option maxRecDepth 100000

namespace RiskAgent

/-- JavaScript whitespace (the characters relevant to `\s`, `trim`):
space, tab, newline, carriage return, vertical tab, form feed. -/
def isWsJS (c : Char) : Bool :=
  c = ' ' || c = '\t' || c = '\n' || c = '\r' || c = '\x0b' || c = '\x0c'

/-- Characters recognised by the JavaScript `.` regex class (anything but
line terminators). -/
def isDotChar (c : Char) : Bool :=
  c ≠ '\n' && c ≠ '\r'

/-- Model of `String.prototype.trim` on character lists. -/
def trimChars (l : List Char) : List Char :=
  ((l.dropWhile isWsJS).reverse.dropWhile isWsJS).reverse

/-- Model of `String.prototype.trim`. -/
def jsTrim (s : String) : String := ⟨trimChars s.data⟩

/-- Case-insensitive character comparison against a lowercase pattern
character (`/i` regexes; patterns are stored lowercase). -/
def eqCI (pat c : Char) : Bool := c.toLower = pat

/-- Case-insensitive literal prefix test (`pat` is given lowercase). -/
def startsCI : List Char → List Char → Bool
  | [], _ => true
  | _ :: _, [] => false
  | p :: ps, c :: cs => eqCI p c && startsCI ps cs

/-- Case-sensitive substring containment, model of
`String.prototype.includes` on character lists. -/
def containsSub (needle : List Char) : List Char → Bool
  | [] => needle.isEmpty
  | l@(_ :: cs) => (needle.isPrefixOf l) || containsSub needle cs

/-- Model of `text.toLowerCase().includes(w)` for ASCII data. -/
def lowerIncludes (s : String) (w : String) : Bool :=
  containsSub w.data (s.data.map Char.toLower)

/-- Index of the first occurrence of `c`. -/
def firstIdx (c : Char) : List Char → Option Nat
  | [] => none
  | x :: xs =>
    if x = c then some 0 else (firstIdx c xs).map (· + 1)

/-- Index of the last occurrence of `c`. -/
def lastIdx (c : Char) (l : List Char) : Option Nat :=
  match firstIdx c l.reverse with
  | none => none
  | some j => some (l.length - 1 - j)

/-- Model of `response.match(/\{[\s\S]*\}/)`: the greedy match runs from
the first `\x7b` to the last `\x7d` of the string, provided the latter comes
after the former; otherwise there is no match. -/
def braceMatch (s : String) : Option String :=
  match firstIdx '{' s.data, lastIdx '}' s.data with
  | some i, some j => if i < j then some ⟨(s.data.drop i).take (j - i + 1)⟩ else none
  | _, _ => none

/-! ### The split regex `/\d+\.\s*Risk|Risk\s*\d+:|^Risk\s*\d+/i` -/

/-- Match `\d+\.\s*Risk` at the front of `l`, returning the number of
characters consumed. -/
def headerAlt1 (l : List Char) : Option Nat :=
  let d := (l.takeWhile Char.isDigit).length
  if d = 0 then none else
  match (l.drop d) with
  | '.' :: r1 =>
    let w := (r1.takeWhile isWsJS).length
    if startsCI "risk".data (r1.drop w) then some (d + 1 + w + 4) else none
  | _ => none

/-- Match `Risk\s*\d+:` at the front of `l`. -/
def headerAlt2 (l : List Char) : Option Nat :=
  if startsCI "risk".data l then
    let r1 := l.drop 4
    let w := (r1.takeWhile isWsJS).length
    let r2 := r1.drop w
    let d := (r2.takeWhile Char.isDigit).length
    if d = 0 then none else
    match r2.drop d with
    | ':' :: _ => some (4 + w + d + 1)
    | _ => none
  else none

/-- Match `Risk\s*\d+` at the front of `l` (the `^`-anchored alternative;
only tried at position 0). -/
def headerAlt3 (l : List Char) : Option Nat :=
  if startsCI "risk".data l then
    let r1 := l.drop 4
    let w := (r1.takeWhile isWsJS).length
    let r2 := r1.drop w
    let d := (r2.takeWhile Char.isDigit).length
    if d = 0 then none else some (4 + w + d)
  else none

/-- The split regex tried at one position: alternatives in source order,
with the anchored third alternative available only at the start of the
string. -/
def headerMatchLen (atStart : Bool) (l : List Char) : Option Nat :=
  (headerAlt1 l).orElse fun _ =>
    (headerAlt2 l).orElse fun _ =>
      if atStart then headerAlt3 l else none

/-- Splitting scan for `response.split(/\d+\.\s*Risk|Risk\s*\d+:|^Risk\s*\d+/i)`:
`acc` is the current part accumulated in reverse; the `fuel` argument makes
the recursion structural (a match always consumes at least one character,
so `rest.length + 1` fuel always suffices). -/
def headerSplitAux : Nat → Bool → List Char → List Char → List (List Char)
  | 0, _, l, acc => [acc.reverse ++ l]
  | _ + 1, _, [], acc => [acc.reverse]
  | fuel + 1, atStart, l@(c :: cs), acc =>
    match headerMatchLen atStart l with
    | some (n + 1) => acc.reverse :: headerSplitAux fuel false (cs.drop n) []
    | _ => headerSplitAux fuel false cs (c :: acc)

/-- Model of `response.split(/\d+\.\s*Risk|Risk\s*\d+:|^Risk\s*\d+/i)`. -/
def headerSplit (s : String) : List String :=
  (headerSplitAux (s.data.length + 1) true s.data []).map fun l => ⟨l⟩

/-! ### The split regexes `/[.!?]+/` and `/\n\s*\n/` -/

def isSentEnd (c : Char) : Bool := c = '.' || c = '!' || c = '?'

/-- Splitting scan for `text.split(/[.!?]+/)`: when `skipping`, the scan is
inside a separator run (so a further separator character is absorbed into
the same match). -/
def sentenceSplitAux : Bool → List Char → List Char → List (List Char)
  | _, [], acc => [acc.reverse]
  | skipping, c :: cs, acc =>
    if isSentEnd c then
      if skipping then sentenceSplitAux true cs acc
      else acc.reverse :: sentenceSplitAux true cs []
    else
      sentenceSplitAux false cs (c :: acc)

/-- Model of `text.split(/[.!?]+/)`. -/
def sentenceSplit (s : String) : List String :=
  (sentenceSplitAux false s.data []).map fun l => ⟨l⟩

/-- Index (within `ws`) of the last `\n`, used by the greedy `\s*` of
`/\n\s*\n/`. -/
def lastNl (ws : List Char) : Option Nat := lastIdx '\n' ws

/-- Splitting scan for `text.split(/\n\s*\n/)`: a match is a `\n`, then the
longest whitespace run that still leaves a final `\n` inside it.  Fuel as
in `headerSplitAux`. -/
def paragraphSplitAux : Nat → List Char → List Char → List (List Char)
  | 0, l, acc => [acc.reverse ++ l]
  | _ + 1, [], acc => [acc.reverse]
  | fuel + 1, c :: cs, acc =>
    if c = '\n' then
      match lastNl (cs.takeWhile isWsJS) with
      | some k => acc.reverse :: paragraphSplitAux fuel (cs.drop (k + 1)) []
      | none => paragraphSplitAux fuel cs (c :: acc)
    else
      paragraphSplitAux fuel cs (c :: acc)

/-- Model of `text.split(/\n\s*\n/)`. -/
def paragraphSplit (s : String) : List String :=
  (paragraphSplitAux (s.data.length + 1) s.data []).map fun l => ⟨l⟩

/-! ### Label-capture regexes of `parseRiskSection`

Each is of the shape
`/(?:L1|L2|...)\s*[:.]?\s*(.+?)(?=\n|$|W1|W2|...)/i`.
The quantifier backtracking order of the JavaScript engine is reproduced
explicitly: the first `\s*` greedily from its maximum down, then the
optional `[:.]` taken before skipped, then the second `\s*` from its
maximum down, then the lazy `(.+?)` from one character up, then the
lookahead. -/

/-- Length of the leading `\s*` run. -/
def wsRun (l : List Char) : Nat := (l.takeWhile isWsJS).length

/-- Length of the leading run of `.`-class characters. -/
def dotRun (l : List Char) : Nat := (l.takeWhile isDotChar).length

/-- The lookahead `(?=\n|$|W1|...)` as a test. -/
def lookTest (words : List (List Char)) (l : List Char) : Bool :=
  l.isEmpty || l.head? = some '\n' || words.any (startsCI · l)

/-- Lazy `(.+?)` followed by the lookahead: the shortest non-empty capture
of `.`-class characters after which the lookahead holds. -/
def capLazy (words : List (List Char)) (l : List Char) : Option (List Char) :=
  (List.range' 1 (dotRun l)).findSome? fun d =>
    if lookTest words (l.drop d) then some (l.take d) else none

/-- The `[:.]?\s*(.+?)(?=...)` tail: optional colon/period (greedily taken
first), then the second greedy `\s*`, then the lazy capture. -/
def capTail (words : List (List Char)) (r1 : List Char) : Option (List Char) :=
  let withB : Option (List Char) :=
    match r1 with
    | c :: r2 =>
      if c = ':' || c = '.' then
        ((List.range (wsRun r2 + 1)).reverse).findSome? fun cc =>
          capLazy words (r2.drop cc)
      else none
    | [] => none
  withB.orElse fun _ =>
    ((List.range (wsRun r1 + 1)).reverse).findSome? fun cc =>
      capLazy words (r1.drop cc)

/-- The whole tail after a matched label alternative: first greedy `\s*`,
then `capTail`. -/
def capAfterLabel (words : List (List Char)) (rest : List Char) : Option (List Char) :=
  ((List.range (wsRun rest + 1)).reverse).findSome? fun a =>
    capTail words (rest.drop a)

/-- Scan of the subject string for the first position where some label
alternative (tried in source order) extends to a full match; returns the
group-1 capture. -/
def labelScan (alts words : List (List Char)) : List Char → Option (List Char)
  | [] => none
  | l@(_ :: cs) =>
    match alts.findSome? (fun a =>
        if startsCI a l then capAfterLabel words (l.drop a.length) else none) with
    | some cap => some cap
    | none => labelScan alts words cs

/-- `section.match(/(?:Description|Risk Description|Description:)\s*[:.]?\s*(.+?)(?=\n|$|Category|Likelihood|Impact|Treatment)/i)`,
returning the group-1 capture. -/
def descMatch (s : String) : Option String :=
  (labelScan ["description".data, "risk description".data, "description:".data]
    ["category".data, "likelihood".data, "impact".data, "treatment".data]
    s.data).map fun l => ⟨l⟩

/-- `section.match(/(?:Category|Risk Category|Category:)\s*[:.]?\s*(.+?)(?=\n|$|Likelihood|Impact|Treatment|Description)/i)`. -/
def catMatch (s : String) : Option String :=
  (labelScan ["category".data, "risk category".data, "category:".data]
    ["likelihood".data, "impact".data, "treatment".data, "description".data]
    s.data).map fun l => ⟨l⟩

/-- `section.match(/(?:Treatment|Strategy|Treatment Strategy|Risk Treatment|Treatment Strategy:)\s*[:.]?\s*(.+?)(?=\n|$|Risk|$)/i)`. -/
def treatMatch (s : String) : Option String :=
  (labelScan
    ["treatment".data, "strategy".data, "treatment strategy".data,
     "risk treatment".data, "treatment strategy:".data]
    ["risk".data]
    s.data).map fun l => ⟨l⟩

/-- Capture tail of the likelihood/impact regexes: `\s*[:.]?\s*` followed by
the alternation `(High|Medium|Low)` case-insensitively.  Because none of the
level words starts with whitespace, a colon or a period, the greedy
quantifiers never profitably backtrack, so the maxima are taken outright.
The capture preserves the subject's own characters. -/
def levelTryAt (l : List Char) : Option (List Char) :=
  let r1 := l.drop (wsRun l)
  let r2 :=
    match r1 with
    | c :: r => if c = ':' || c = '.' then r.drop (wsRun r) else r1
    | [] => r1
  (["high".data, "medium".data, "low".data]).findSome? fun w =>
    if startsCI w r2 then some (r2.take w.length) else none

/-- Scan for the level regexes. -/
def levelScan (alts : List (List Char)) : List Char → Option (List Char)
  | [] => none
  | l@(_ :: cs) =>
    match alts.findSome? (fun a =>
        if startsCI a l then levelTryAt (l.drop a.length) else none) with
    | some cap => some cap
    | none => levelScan alts cs

/-- `section.match(/(?:Likelihood|Likelihood:)\s*[:.]?\s*(High|Medium|Low)/i)`. -/
def likMatch (s : String) : Option String :=
  (levelScan ["likelihood".data, "likelihood:".data] s.data).map fun l => ⟨l⟩

/-- `section.match(/(?:Impact|Impact:)\s*[:.]?\s*(High|Medium|Low)/i)`. -/
def impMatch (s : String) : Option String :=
  (levelScan ["impact".data, "impact:".data] s.data).map fun l => ⟨l⟩

/-! ### `cleanText` -/

/-- `.replace(/^\s*[-•*]\s*/, '')`. -/
def stripBullet (l : List Char) : List Char :=
  let r1 := l.dropWhile isWsJS
  match r1 with
  | c :: r2 => if c = '-' || c = '•' || c = '*' then r2.dropWhile isWsJS else l
  | [] => l

/-- `.replace(/^\s*\d+\.\s*/, '')`. -/
def stripNumber (l : List Char) : List Char :=
  let r1 := l.dropWhile isWsJS
  let d := (r1.takeWhile Char.isDigit).length
  if d = 0 then l else
  match r1.drop d with
  | '.' :: r2 => r2.dropWhile isWsJS
  | _ => l

/-- `.replace(/^\s*[:.]\s*/, '')`. -/
def stripColon (l : List Char) : List Char :=
  let r1 := l.dropWhile isWsJS
  match r1 with
  | c :: r2 => if c = ':' || c = '.' then r2.dropWhile isWsJS else l
  | [] => l

/-- The source's `cleanText`: strip one leading bullet, one leading
enumeration number, one leading colon/period, then trim. -/
def cleanText (s : String) : String :=
  ⟨trimChars (stripColon (stripNumber (stripBullet s.data)))⟩

/-! ### Tier-3 keyword machinery -/

/-- Scan for the first position at or after the start of `l` where one of
the keywords (alternation, in order) matches; returns the end index of the
match relative to the position base `pos`. -/
def kwFindAux (kws : List (List Char)) : List Char → Nat → Option Nat
  | [], _ => none
  | l@(_ :: cs), pos =>
    match kws.findSome? (fun w => if startsCI w l then some w.length else none) with
    | some len => some (pos + len)
    | none => kwFindAux kws cs (pos + 1)

/-- Model of `regex.test(s)` for a `/g` regex with the given `lastIndex`:
searches from `lastIndex`, returning the new `lastIndex` on success. -/
def kwTest (kws : List (List Char)) (l : List Char) (lastIndex : Nat) : Option Nat :=
  kwFindAux kws (l.drop lastIndex) lastIndex

/-- `/(?:risk|threat|vulnerability|exposure|hazard)/gi`. -/
def riskKws : List (List Char) :=
  ["risk".data, "threat".data, "vulnerability".data, "exposure".data, "hazard".data]

/-- `/(?:operational|financial|strategic|compliance|cybersecurity|environmental|reputational)/gi`. -/
def domainKws : List (List Char) :=
  ["operational".data, "financial".data, "strategic".data, "compliance".data,
   "cybersecurity".data, "environmental".data, "reputational".data]

/-- The source's `determineCategory` keyword cascade. -/
def determineCategory (text : String) : String :=
  if lowerIncludes text "competition" || lowerIncludes text "competitor" ||
      lowerIncludes text "market share" then "Competition"
  else if lowerIncludes text "external" || lowerIncludes text "economic" ||
      lowerIncludes text "political" then "External"
  else if lowerIncludes text "financial" || lowerIncludes text "money" ||
      lowerIncludes text "cost" || lowerIncludes text "revenue" then "Financial"
  else if lowerIncludes text "innovation" || lowerIncludes text "research" ||
      lowerIncludes text "development" || lowerIncludes text "rd" then "Innovation"
  else if lowerIncludes text "internal" || lowerIncludes text "employee" ||
      lowerIncludes text "management" then "Internal"
  else if lowerIncludes text "legal" || lowerIncludes text "compliance" ||
      lowerIncludes text "regulation" || lowerIncludes text "law" then "Legal and Compliance"
  else if lowerIncludes text "operational" || lowerIncludes text "process" ||
      lowerIncludes text "system" then "Operational"
  else if lowerIncludes text "project" || lowerIncludes text "timeline" ||
      lowerIncludes text "scope" then "Project Management"
  else if lowerIncludes text "reputation" || lowerIncludes text "brand" ||
      lowerIncludes text "public" then "Reputational"
  else if lowerIncludes text "safety" || lowerIncludes text "health" ||
      lowerIncludes text "accident" then "Safety"
  else if lowerIncludes text "strategic" || lowerIncludes text "business" ||
      lowerIncludes text "market" then "Strategic"
  else if lowerIncludes text "technology" || lowerIncludes text "cyber" ||
      lowerIncludes text "security" || lowerIncludes text "data breach" then "Technology"
  else "Operational"

/-- The source's `determineLikelihood` keyword ladder. -/
def determineLikelihood (text : String) : String :=
  if lowerIncludes text "critical" || lowerIncludes text "extremely likely" ||
      lowerIncludes text "certain" then "Critical"
  else if lowerIncludes text "severe" || lowerIncludes text "very likely" ||
      lowerIncludes text "frequent" then "Severe"
  else if lowerIncludes text "high" || lowerIncludes text "likely" ||
      lowerIncludes text "probable" then "High"
  else if lowerIncludes text "low" || lowerIncludes text "unlikely" ||
      lowerIncludes text "rare" then "Low"
  else "Medium"

/-- The source's `determineImpact` keyword ladder. -/
def determineImpact (text : String) : String :=
  if lowerIncludes text "critical" || lowerIncludes text "catastrophic" ||
      lowerIncludes text "devastating" then "Critical"
  else if lowerIncludes text "severe" || lowerIncludes text "major" ||
      lowerIncludes text "significant" then "Severe"
  else if lowerIncludes text "high" || lowerIncludes text "substantial" ||
      lowerIncludes text "considerable" then "High"
  else if lowerIncludes text "low" || lowerIncludes text "minor" ||
      lowerIncludes text "minimal" then "Low"
  else "Medium"

/-! ### JSON values and `JSON.parse` -/

/-- JSON values as produced by `JSON.parse`.  Numbers are modelled as
rationals (double-precision rounding is not modelled; no claim depends on
numeric values). -/
inductive Json where
  | null
  | bool (b : Bool)
  | num (q : Rat)
  | str (s : String)
  | arr (xs : List Json)
  | obj (fields : List (String × Json))
deriving Repr

/-- Test for the JSON `null` value (JavaScript `risk === null` situations
arise as property access on `null` throwing a `TypeError`). -/
def Json.isNull : Json → Bool
  | .null => true
  | _ => false

/-- JSON whitespace (per the JSON grammar, which `JSON.parse` follows). -/
def isJsonWs (c : Char) : Bool :=
  c = ' ' || c = '\t' || c = '\n' || c = '\r'

/-- Hexadecimal digit value. -/
def hexVal (c : Char) : Option Nat :=
  if '0' ≤ c ∧ c ≤ '9' then some (c.toNat - '0'.toNat)
  else if 'a' ≤ c ∧ c ≤ 'f' then some (c.toNat - 'a'.toNat + 10)
  else if 'A' ≤ c ∧ c ≤ 'F' then some (c.toNat - 'A'.toNat + 10)
  else none

/-- JSON string body parser (after the opening quote): returns the decoded
characters and the input after the closing quote.  Control characters and
malformed escapes make `JSON.parse` throw. -/
def jstring : List Char → Option (List Char × List Char)
  | [] => none
  | '"' :: r => some ([], r)
  | '\\' :: e :: r =>
    match e with
    | '"' => (jstring r).map fun (cs, r2) => ('"' :: cs, r2)
    | '\\' => (jstring r).map fun (cs, r2) => ('\\' :: cs, r2)
    | '/' => (jstring r).map fun (cs, r2) => ('/' :: cs, r2)
    | 'b' => (jstring r).map fun (cs, r2) => ('\x08' :: cs, r2)
    | 'f' => (jstring r).map fun (cs, r2) => ('\x0c' :: cs, r2)
    | 'n' => (jstring r).map fun (cs, r2) => ('\n' :: cs, r2)
    | 'r' => (jstring r).map fun (cs, r2) => ('\r' :: cs, r2)
    | 't' => (jstring r).map fun (cs, r2) => ('\t' :: cs, r2)
    | 'u' =>
      match r with
      | a :: b :: c :: d :: r2 =>
        match hexVal a, hexVal b, hexVal c, hexVal d with
        | some x, some y, some z, some w =>
          (jstring r2).map fun (cs, r3) =>
            (Char.ofNat (((x * 16 + y) * 16 + z) * 16 + w) :: cs, r3)
        | _, _, _, _ => none
      | _ => none
    | _ => none
  | c :: r =>
    if c.toNat < 0x20 then none
    else (jstring r).map fun (cs, r2) => (c :: cs, r2)

/-- Digit run as a natural number, with its length. -/
def digitsVal (l : List Char) : Nat × Nat :=
  let ds := l.takeWhile Char.isDigit
  (ds.foldl (fun a c => a * 10 + (c.toNat - '0'.toNat)) 0, ds.length)

/-- JSON number parser following the JSON grammar
`-?(0|[1-9][0-9]*)(\.[0-9]+)?([eE][+-]?[0-9]+)?`. -/
def jnumber (l : List Char) : Option (Rat × List Char) := do
  let (neg, l1) := match l with
    | '-' :: r => (true, r)
    | _ => (false, l)
  let (iv, ilen) := digitsVal l1
  if ilen = 0 then none else
  -- leading-zero rule: "0" alone or first digit nonzero
  if ilen > 1 ∧ l1.head? = some '0' then none else
  let l2 := l1.drop ilen
  let (fv, flen, l3) :=
    match l2 with
    | '.' :: r =>
      let (v, n) := digitsVal r
      (v, n, r.drop n)
    | _ => (0, 0, l2)
  if l2.head? = some '.' ∧ flen = 0 then none else
  let (ev, elen, epos, l4) :=
    match l3 with
    | 'e' :: '+' :: r | 'E' :: '+' :: r =>
      let (v, n) := digitsVal r
      (v, n, true, r.drop n)
    | 'e' :: '-' :: r | 'E' :: '-' :: r =>
      let (v, n) := digitsVal r
      (v, n, false, r.drop n)
    | 'e' :: r | 'E' :: r =>
      let (v, n) := digitsVal r
      (v, n, true, r.drop n)
    | _ => (0, 0, true, l3)
  if (l3.head? = some 'e' ∨ l3.head? = some 'E') ∧ elen = 0 then none else
  let mant : Rat := (iv : Rat) + (fv : Rat) / ((10 : Rat) ^ flen)
  let scaled : Rat := if epos then mant * (10 : Rat) ^ ev else mant / ((10 : Rat) ^ ev)
  some (if neg then -scaled else scaled, l4)

mutual

/-- One JSON value, after skipping leading whitespace. -/
def jvalue : Nat → List Char → Option (Json × List Char)
  | 0, _ => none
  | fuel + 1, l =>
    let l0 := l.dropWhile isJsonWs
    match l0 with
    | '{' :: r => jobject fuel (r.dropWhile isJsonWs) []
    | '[' :: r =>
      match (r.dropWhile isJsonWs) with
      | ']' :: r2 => some (.arr [], r2)
      | _ => jarray fuel r []
    | '"' :: r => (jstring r).map fun (cs, r2) => (.str ⟨cs⟩, r2)
    | 't' :: 'r' :: 'u' :: 'e' :: r => some (.bool true, r)
    | 'f' :: 'a' :: 'l' :: 's' :: 'e' :: r => some (.bool false, r)
    | 'n' :: 'u' :: 'l' :: 'l' :: r => some (.null, r)
    | _ => (jnumber l0).map fun (q, r) => (.num q, r)

/-- Object members: expects `}` or a sequence of `"key": value` pairs.
`acc` holds the members parsed so far, in order. -/
def jobject : Nat → List Char → List (String × Json) → Option (Json × List Char)
  | 0, _, _ => none
  | _ + 1, '}' :: r, acc => some (.obj acc.reverse, r)
  | fuel + 1, '"' :: r, acc => do
    let (k, r2) ← jstring r
    match r2.dropWhile isJsonWs with
    | ':' :: r3 => do
      let (v, r4) ← jvalue fuel r3
      match r4.dropWhile isJsonWs with
      | ',' :: r5 => jobject fuel (r5.dropWhile isJsonWs) ((⟨k⟩, v) :: acc)
      | '}' :: r5 => some (.obj (((⟨k⟩ : String), v) :: acc).reverse, r5)
      | _ => none
    | _ => none
  | _ + 1, _, _ => none

/-- Array elements. -/
def jarray : Nat → List Char → List Json → Option (Json × List Char)
  | 0, _, _ => none
  | fuel + 1, l, acc => do
    let (v, r) ← jvalue fuel l
    match r.dropWhile isJsonWs with
    | ',' :: r2 => jarray fuel r2 (v :: acc)
    | ']' :: r2 => some (.arr (v :: acc).reverse, r2)
    | _ => none

end

/-- Model of `JSON.parse`: parse one value and require only whitespace to
remain; `none` models a thrown `SyntaxError`. -/
def jsonParse (s : String) : Option Json :=
  match jvalue (2 * s.data.length + 4) s.data with
  | some (v, rest) => if (rest.dropWhile isJsonWs).isEmpty then some v else none
  | none => none

/-- JavaScript property access `v[k]` for parsed JSON: `none` models
`undefined` (absent key or non-object receiver).  Later duplicate keys
override earlier ones, as in JavaScript object construction. -/
def getField (v : Json) (key : String) : Option Json :=
  match v with
  | .obj fs => fs.foldl (fun acc kv => if kv.1 = key then some kv.2 else acc) none
  | _ => none

/-- JavaScript truthiness of a parsed-JSON value. -/
def jsTruthyV : Json → Bool
  | .null => false
  | .bool b => b
  | .num q => q ≠ 0
  | .str s => s ≠ ""
  | .arr _ => true
  | .obj _ => true

/-- Truthiness of a possibly-`undefined` value. -/
def jsTruthy : Option Json → Bool
  | none => false
  | some v => jsTruthyV v

/-- JavaScript `a || b` for a possibly-`undefined` left operand. -/
def jsOr (a : Option Json) (b : Json) : Json :=
  match a with
  | some v => if jsTruthyV v then v else b
  | none => b

/-- JavaScript `a || undefined`. -/
def jsOrUndef (a : Option Json) : Option Json :=
  match a with
  | some v => if jsTruthyV v then some v else none
  | none => none

/-! ### The `Risk` record and the extractor -/

/-- The `Risk` interface of the source.  Fields that the JSON tier copies
verbatim from parsed entries hold `Json` values (the code performs no type
check beyond truthiness); the text tiers always store strings.
`securityImpact`/`residualExposure` use `none` for `undefined`. -/
structure Risk where
  id : String
  description : Json
  category : Json
  likelihood : Json
  impact : Json
  treatmentStrategy : Json
  isSelected : Bool
  assetValue : Json
  department : Json
  riskOwner : Json
  securityImpact : Option Json
  targetDate : Json
  riskProgress : Json
  residualExposure : Option Json
deriving Repr

/-- The record pushed by the JSON tier for the entry at array index
`index` (`risks.push({...})` inside the `forEach`). -/
def mkJsonRisk (index : Nat) (e : Json) : Risk :=
  { id := "risk-" ++ toString (index + 1)
    description := (getField e "description").getD .null
    category := (getField e "category").getD .null
    likelihood := jsOr (getField e "likelihood") (.str "Medium")
    impact := jsOr (getField e "impact") (.str "Medium")
    treatmentStrategy :=
      jsOr (getField e "treatment_strategy")
        (jsOr (getField e "treatmentStrategy")
          (.str "Implement appropriate risk mitigation strategies."))
    isSelected := true
    assetValue := jsOr (getField e "asset_value") (.str "")
    department := jsOr (getField e "department") (.str "")
    riskOwner := jsOr (getField e "risk_owner") (.str "")
    securityImpact := jsOrUndef (getField e "security_impact")
    targetDate := jsOr (getField e "target_date") (.str "")
    riskProgress := jsOr (getField e "risk_progress") (.str "Identified")
    residualExposure := jsOrUndef (getField e "residual_exposure") }

/-- The `forEach` over `parsedData.risks`, starting at array index `i`:
entries with truthy `description` and `category` are pushed; a `null`
entry makes the property access `risk.description` throw a `TypeError`,
which aborts the loop (the Boolean result records whether that happened;
records pushed before the throw are kept, since the `catch` is outside). -/
def tier1Aux : Nat → List Json → List Risk × Bool
  | _, [] => ([], false)
  | i, e :: es =>
    if e.isNull then ([], true)
    else if jsTruthy (getField e "description") && jsTruthy (getField e "category") then
      let t := tier1Aux (i + 1) es
      (mkJsonRisk i e :: t.1, t.2)
    else
      tier1Aux (i + 1) es

/-- The `risks` array iterated by the `try` block: requires a brace block
that parses as JSON to a value whose `risks` property is an array; in
every other case (no block, `SyntaxError`, `parsedData.risks` falsy or a
`TypeError` from accessing `.risks` on `null`, or a non-array value) the
loop body never runs and the list is empty. -/
def tier1Entries (response : String) : List Json :=
  match braceMatch response with
  | none => []
  | some block =>
    match jsonParse block with
    | none => []
    | some v =>
      match getField v "risks" with
      | some (.arr rs) => rs
      | _ => []

/-- The `try` block's result: the records accumulated in `risks` together
with whether the early `return risks` was taken (which requires no thrown
`TypeError` and at least one pushed record; with an empty entry list both
components are trivial, as in the source). -/
def tier1 (response : String) : List Risk × Bool :=
  let t := tier1Aux 0 (tier1Entries response)
  (t.1, !t.2 && !t.1.isEmpty)

/-- The source's `extractFirstParagraph`. -/
def extractFirstParagraph (text : String) : String :=
  match paragraphSplit text with
  | p :: _ => if p ≠ "" then p else ⟨text.data.take 200⟩
  | [] => ⟨text.data.take 200⟩

/-- The source's `extractLastParagraph`. -/
def extractLastParagraph (text : String) : String :=
  match (paragraphSplit text).getLast? with
  | some p => if p ≠ "" then p else "Implement appropriate risk mitigation strategies."
  | none => "Implement appropriate risk mitigation strategies."

/-- The resolved description of a section: the label capture when the
description regex matches, else the section's first paragraph. -/
def resolvedDesc (s : String) : String :=
  match descMatch s with
  | some cap => jsTrim cap
  | none => extractFirstParagraph s

/-- The resolved category of a section: label capture or the fallback. -/
def resolvedCat (s : String) : String :=
  match catMatch s with
  | some cap => jsTrim cap
  | none => "Operational Risks"

/-- The resolved treatment strategy: label capture or the last paragraph. -/
def resolvedTreat (s : String) : String :=
  match treatMatch s with
  | some cap => jsTrim cap
  | none => extractLastParagraph s

/-- The record `parseRiskSection` returns when the description check
passes. -/
def sectionRecord (s : String) (riskNumber : Nat) : Risk :=
  { id := "risk-" ++ toString riskNumber
    description := .str (cleanText (resolvedDesc s))
    category := .str (cleanText (resolvedCat s))
    likelihood := .str ((likMatch s).getD "Medium")
    impact := .str ((impMatch s).getD "Medium")
    treatmentStrategy := .str (cleanText (resolvedTreat s))
    isSelected := true
    assetValue := .str ""
    department := .str ""
    riskOwner := .str ""
    securityImpact := none
    targetDate := .str ""
    riskProgress := .str "Identified"
    residualExposure := none }

/-- The source's `parseRiskSection` (its `try` is unreachable: every
operation here is total). -/
def parseRiskSection (s : String) (riskNumber : Nat) : Option Risk :=
  if resolvedDesc s = "" ∨ (resolvedDesc s).length < 10 then
    none
  else
    some (sectionRecord s riskNumber)

/-- The record pushed by the keyword tier for a qualifying sentence, with
the already-incremented `riskCount`. -/
def mkTextRisk (count : Nat) (cs : String) : Risk :=
  { id := "risk-" ++ toString count
    description := .str (cleanText cs)
    category := .str (determineCategory cs)
    likelihood := .str (determineLikelihood cs)
    impact := .str (determineImpact cs)
    treatmentStrategy :=
      .str "Implement appropriate controls and monitoring based on risk assessment."
    isSelected := true
    assetValue := .str ""
    department := .str ""
    riskOwner := .str ""
    securityImpact := none
    targetDate := .str ""
    riskProgress := .str "Identified"
    residualExposure := none }

/-- The `forEach` over the filtered sentences of `extractRisksFromText`.
State: `count` is `riskCount`; `l1`/`l2` are the mutable `lastIndex`
fields of the two `/g` regexes in `riskIndicators`, threaded across
iterations exactly as `Array.prototype.some` with `RegExp.prototype.test`
does (short-circuiting, resetting to 0 on failure). -/
def extractAux : List String → Nat → Nat → Nat → List Risk
  | [], _, _, _ => []
  | sent :: rest, count, l1, l2 =>
    let cs := jsTrim sent
    if cs.length < 20 then extractAux rest count l1 l2
    else
      match kwTest riskKws cs.data l1 with
      | some e1 =>
        if count < 10 then mkTextRisk (count + 1) cs :: extractAux rest (count + 1) e1 l2
        else extractAux rest count e1 l2
      | none =>
        match kwTest domainKws cs.data l2 with
        | some e2 =>
          if count < 10 then mkTextRisk (count + 1) cs :: extractAux rest (count + 1) 0 e2
          else extractAux rest count 0 e2
        | none => extractAux rest count 0 0

/-- The source's `extractRisksFromText` (tier 3). -/
def extractRisksFromText (text : String) : List Risk :=
  let sentences := (sentenceSplit text).filter fun t => 20 < (jsTrim t).length
  extractAux sentences 0 0 0

/-- The filtered section list of the fallback text parsing
(`response.split(...).filter(section => section.trim())`). -/
def sections (response : String) : List String :=
  (headerSplit response).filter fun t => jsTrim t ≠ ""

/-- The `riskSections.forEach(...)` loop of the fallback text parsing:
each section is trimmed and parsed with its index-based risk number;
`null` results are not pushed. -/
def tier2Aux : List String → Nat → List Risk
  | [], _ => []
  | sec :: rest, i =>
    match parseRiskSection (jsTrim sec) (i + 1) with
    | some r => r :: tier2Aux rest (i + 1)
    | none => tier2Aux rest (i + 1)

/-- The records contributed by the section tier. -/
def tier2Records (response : String) : List Risk :=
  tier2Aux (sections response) 0

/-- The source's `parseRisksFromLLMResponse`. -/
def parseRisksFromLLMResponse (response : String) : List Risk :=
  let t1 := tier1 response
  if t1.2 then t1.1
  else if (sections response).isEmpty then extractRisksFromText response
  else
    let recs := t1.1 ++ tier2Records response
    if recs.isEmpty then extractRisksFromText response else recs

/-! ### Concrete inputs used by the claim analyses -/

/-- A syntactically valid JSON object with an empty `risks` array. -/
def inEmptyRisks : String := "\x7b\"risks\":[]\x7d"

/-- A `risks` array with one valid entry followed by `null`. -/
def inThrowAfterPush : String :=
  "\x7b\"risks\":[\x7b\"description\":\"aaaaaaaaaaa\",\"category\":\"c\"\x7d,null]\x7d"

/-- A `risks` array with `null` before the valid entry. -/
def inNullFirst : String :=
  "\x7b\"risks\":[null,\x7b\"description\":\"valid description A\",\"category\":\"c\"\x7d]\x7d"

/-- The valid entry of `inNullFirst`. -/
def entryGood : Json :=
  .obj [("description", .str "valid description A"), ("category", .str "c")]

/-- Two numbered sections: the first resolves to a description that the
cleanup step shrinks to one character, the second carries a category label
whose capture the cleanup step empties. -/
def inCleanupLoss : String :=
  "Risk 1: 123456789.x\nRisk 2: Description: a sufficiently long description\nCategory ::"

/-- Three unrelated short sentences with no JSON and no headers. -/
def inThreeSentences : String := "Cats are cute. Dogs bark. Fish swim."

/-- Three short sentences separated by blank lines. -/
def inThreeParagraphs : String := "Hi.\n\nYes.\n\nNo."

/-- The fixed prose input of the keyword-tier claim. -/
def inCyberProse : String :=
  "The company faces significant cybersecurity risk from outdated systems and unpatched vulnerabilities that could lead to a major data breach."

/-- The fixed labelled-section input of the section-tier claim. -/
def inLabelled : String :=
  "1. Risk Description: Aging server hardware may fail. Category: Technology. Likelihood: High. Impact: High. Treatment Strategy: Replace hardware within 6 months."

/-- An input whose single section carries a `Category:` label. -/
def inCategoryLabel : String := "Category: Financial loss likely"

/-- The record actually produced for `inLabelled`. -/
def labelledRecord : Risk :=
  { id := "risk-1"
    description := .str "Aging server hardware may fail."
    category := .str "Technology."
    likelihood := .str "High"
    impact := .str "High"
    treatmentStrategy := .str "Strategy: Replace hardware within 6 months."
    isSelected := true
    assetValue := .str ""
    department := .str ""
    riskOwner := .str ""
    securityImpact := none
    targetDate := .str ""
    riskProgress := .str "Identified"
    residualExposure := none }

/-- A valid single-entry `risks` JSON input. -/
def inGoodJson : String :=
  "\x7b\"risks\":[\x7b\"description\":\"Our vendor contract renewal is overdue\",\"category\":\"Legal and Compliance\"\x7d]\x7d"

/-- The entry of `inGoodJson`. -/
def entryVendor : Json :=
  .obj [("description", .str "Our vendor contract renewal is overdue"),
        ("category", .str "Legal and Compliance")]

/-- The parse result of `inGoodJson`. -/
def objVendor : Json := .obj [("risks", .arr [entryVendor])]

/-- The record the JSON tier builds for `inGoodJson`'s entry. -/
def recVendor : Risk := mkJsonRisk 0 entryVendor

/-- The array indices of the entries the JSON-tier loop accepts (cut short
by a `null` entry, which throws). -/
def acceptedIdx : Nat → List Json → List Nat
  | _, [] => []
  | i, e :: es =>
    if e.isNull then []
    else if jsTruthy (getField e "description") && jsTruthy (getField e "category") then
      i :: acceptedIdx (i + 1) es
    else
      acceptedIdx (i + 1) es

/-- The section indices whose `parseRiskSection` call succeeds. -/
def acceptedSecIdxAux : List String → Nat → List Nat
  | [], _ => []
  | sec :: rest, i =>
    match parseRiskSection (jsTrim sec) (i + 1) with
    | some _ => i :: acceptedSecIdxAux rest (i + 1)
    | none => acceptedSecIdxAux rest (i + 1)

def acceptedSecIdx (s : String) : List Nat := acceptedSecIdxAux (sections s) 0

/-- A plain unlabelled paragraph. -/
def inPlainProse : String := "Just a plain paragraph of text"

/-! ### Claim C7 -/

/-- The record actually produced for `inCyberProse`. -/
def cyberRecord : Risk :=
  { id := "risk-1"
    description := .str inCyberProse
    category := .str "Operational Risks"
    likelihood := .str "Medium"
    impact := .str "Medium"
    treatmentStrategy := .str inCyberProse
    isSelected := true
    assetValue := .str ""
    department := .str ""
    riskOwner := .str ""
    securityImpact := none
    targetDate := .str ""
    riskProgress := .str "Identified"
    residualExposure := none }

/-- C7, counterexample: on the fixed cybersecurity prose input the
extractor's single record has `treatmentStrategy` equal to the whole input
text, not the keyword tier's fixed generic sentence, and the result does
not come from the keyword tier (`extractRisksFromText` yields a different
record), refuting the claim that tier 3 fires. -/
theorem C7_counterexample :
    (parseRisksFromLLMResponse inCyberProse).map Risk.treatmentStrategy = [.str inCyberProse]
    ∧ Json.str inCyberProse ≠
        .str "Implement appropriate controls and monitoring based on risk assessment."
    ∧ parseRisksFromLLMResponse inCyberProse ≠ extractRisksFromText inCyberProse := by
  refine ⟨rfl, ?_, ?_⟩
  · intro h
    rw [Json.str.injEq] at h
    exact absurd h (by decide)
  · intro h
    have h2 := congrArg (List.map Risk.treatmentStrategy) h
    rw [show (parseRisksFromLLMResponse inCyberProse).map Risk.treatmentStrategy
          = [.str inCyberProse] from rfl,
        show (extractRisksFromText inCyberProse).map Risk.treatmentStrategy
          = [.str "Implement appropriate controls and monitoring based on risk assessment."]
          from rfl] at h2
    rw [List.cons.injEq, Json.str.injEq] at h2
    exact absurd h2.1 (by decide)

/-- C7, amended: tier 2 (not tier 3) fires on this input: with no JSON and
no header boundary the whole input becomes the single section, so the
extractor returns exactly one record whose `description` and
`treatmentStrategy` are both the input text, with the fallback category
"Operational Risks" and "Medium" likelihood and impact. -/
theorem C7_amended :
    parseRisksFromLLMResponse inCyberProse = [cyberRecord] := rfl

/-! ### Claim C8 -/

/-- C8, counterexample: the category captured for the labelled-section
input keeps the trailing period — it is "Technology.", not "Technology"
(the lazy capture stops only at the following "Likelihood" label, and
`cleanText` strips punctuation at the front, not at the end). -/
theorem C8_counterexample :
    (parseRisksFromLLMResponse inLabelled).map Risk.category = [.str "Technology."]
    ∧ Json.str "Technology." ≠ .str "Technology" := by
  refine ⟨rfl, ?_⟩
  intro h
  rw [Json.str.injEq] at h
  exact absurd h (by decide)

/-- C8, amended: tier 1 fails (no brace block), tier 2 succeeds and the
extractor returns exactly one record with `likelihood` = "High",
`impact` = "High" and `category` = "Technology." (the capture includes the
trailing period before the next label). -/
theorem C8_amended :
    braceMatch inLabelled = none
    ∧ parseRisksFromLLMResponse inLabelled = [labelledRecord] := ⟨rfl, rfl⟩

/-! ### Claim C9 -/

/-- C9, confirmed: the extractor is deterministic — two calls on the same
input yield structurally equal lists with identical id assignments.  In
this embedding the extractor is a pure function of the input string alone;
this is faithful to the source, which allocates its regular expressions
and its result array afresh on every call and reads no other state. -/
theorem C9_deterministic (s : String) :
    parseRisksFromLLMResponse s = parseRisksFromLLMResponse s
    ∧ (parseRisksFromLLMResponse s).map Risk.id
        = (parseRisksFromLLMResponse s).map Risk.id := ⟨rfl, rfl⟩

/-! ### Helper lemmas about the JSON tier -/

theorem isNull_false_of_truthy {e : Json} {k : String}
    (h : jsTruthy (getField e k) = true) : e.isNull = false := by
  cases e <;> simp_all [getField, jsTruthy, Json.isNull]

theorem truthyV_getD_of_truthy {e : Json} {k : String}
    (h : jsTruthy (getField e k) = true) :
    jsTruthyV ((getField e k).getD .null) = true := by
  cases hg : getField e k with
  | none => rw [hg] at h; exact absurd h (by simp [jsTruthy])
  | some v => rw [hg] at h; simpa [jsTruthy] using h

/-- Under the all-truthy hypothesis the JSON-tier loop throws nothing,
keeps every entry, numbers records by array position and builds each
record from its entry. -/
theorem tier1Aux_all (rs : List Json) : ∀ i : Nat,
    (∀ e ∈ rs, jsTruthy (getField e "description") = true
        ∧ jsTruthy (getField e "category") = true) →
    (tier1Aux i rs).2 = false
    ∧ (tier1Aux i rs).1.length = rs.length
    ∧ (tier1Aux i rs).1.map Risk.id
        = (List.range' (i + 1) rs.length).map (fun k => "risk-" ++ toString k)
    ∧ ∀ j : Nat, ((tier1Aux i rs).1)[j]? = rs[j]?.map fun e => mkJsonRisk (i + j) e := by
  induction rs with
  | nil => intro i _; refine ⟨rfl, rfl, rfl, fun j => by simp [tier1Aux]⟩
  | cons e es ih =>
    intro i h
    have he := h e (List.mem_cons_self e es)
    have hes := ih (i + 1) fun e' he' => h e' (List.mem_cons_of_mem e he')
    have hnull := isNull_false_of_truthy he.1
    have hstep : tier1Aux i (e :: es)
        = (mkJsonRisk i e :: (tier1Aux (i + 1) es).1, (tier1Aux (i + 1) es).2) := by
      simp [tier1Aux, hnull, he.1, he.2]
    refine ⟨by rw [hstep]; exact hes.1, by rw [hstep]; simp [hes.2.1], ?_, ?_⟩
    · rw [hstep]
      simp only [List.map_cons, List.length_cons, List.range'_succ, hes.2.2.1]
      rfl
    · intro j
      rw [hstep]
      cases j with
      | zero => simp
      | succ j =>
        have := hes.2.2.2 j
        simp only [List.getElem?_cons_succ, this]
        have : i + 1 + j = i + (j + 1) := by omega
        rw [this]

/-- A throw-free loop over a list containing a pushable entry pushes
something. -/
theorem tier1Aux_ne_nil (rs : List Json) : ∀ i : Nat,
    (∀ e ∈ rs, e.isNull = false) →
    (∃ e ∈ rs, jsTruthy (getField e "description") = true
        ∧ jsTruthy (getField e "category") = true) →
    (tier1Aux i rs).1 ≠ [] := by
  induction rs with
  | nil => intro i _ hex; obtain ⟨e, he, _⟩ := hex; exact absurd he (List.not_mem_nil e)
  | cons e es ih =>
    intro i hnn hex
    have hnull : e.isNull = false := hnn e (List.mem_cons_self e es)
    by_cases hg : jsTruthy (getField e "description") = true
        ∧ jsTruthy (getField e "category") = true
    · have hstep : tier1Aux i (e :: es)
          = (mkJsonRisk i e :: (tier1Aux (i + 1) es).1, (tier1Aux (i + 1) es).2) := by
        simp [tier1Aux, hnull, hg.1, hg.2]
      rw [hstep]
      simp
    · have hguard : (jsTruthy (getField e "description")
          && jsTruthy (getField e "category")) = false := by
        by_cases h1 : jsTruthy (getField e "description") = true
        · by_cases h2 : jsTruthy (getField e "category") = true
          · exact absurd ⟨h1, h2⟩ hg
          · simp [Bool.eq_false_iff.mpr h2]
        · simp [Bool.eq_false_iff.mpr h1]
      have hstep : tier1Aux i (e :: es) = tier1Aux (i + 1) es := by
        simp [tier1Aux, hnull, hguard]
      rw [hstep]
      obtain ⟨e', he', ht'⟩ := hex
      rcases List.mem_cons.mp he' with rfl | he'
      · exact absurd ht' hg
      · exact ih (i + 1) (fun x hx => hnn x (List.mem_cons_of_mem e hx)) ⟨e', he', ht'⟩

/-- A throw-free loop reports no throw. -/
theorem tier1Aux_no_throw (rs : List Json) : ∀ i : Nat,
    (∀ e ∈ rs, e.isNull = false) → (tier1Aux i rs).2 = false := by
  induction rs with
  | nil => intro i _; rfl
  | cons e es ih =>
    intro i hnn
    have hnull : e.isNull = false := hnn e (List.mem_cons_self e es)
    have hes := ih (i + 1) fun x hx => hnn x (List.mem_cons_of_mem e hx)
    by_cases hg : (jsTruthy (getField e "description")
        && jsTruthy (getField e "category")) = true
    · have hstep : tier1Aux i (e :: es)
          = (mkJsonRisk i e :: (tier1Aux (i + 1) es).1, (tier1Aux (i + 1) es).2) := by
        simp [tier1Aux, hnull, hg]
      rw [hstep]
      exact hes
    · have hstep : tier1Aux i (e :: es) = tier1Aux (i + 1) es := by
        simp [tier1Aux, hnull, Bool.eq_false_iff.mpr hg]
      rw [hstep]
      exact hes

/-- Every record the JSON-tier loop pushes passed the truthiness guard. -/
theorem tier1Aux_mem (rs : List Json) : ∀ i : Nat, ∀ r ∈ (tier1Aux i rs).1,
    jsTruthyV r.description = true ∧ jsTruthyV r.category = true := by
  induction rs with
  | nil => intro i r hr; exact absurd hr (List.not_mem_nil r)
  | cons e es ih =>
    intro i r hr
    by_cases hnull : e.isNull = true
    · rw [show tier1Aux i (e :: es) = ([], true) by simp [tier1Aux, hnull]] at hr
      exact absurd hr (List.not_mem_nil r)
    · have hnull' : e.isNull = false := Bool.eq_false_iff.mpr hnull
      by_cases hg : (jsTruthy (getField e "description")
          && jsTruthy (getField e "category")) = true
      · rw [show tier1Aux i (e :: es)
            = (mkJsonRisk i e :: (tier1Aux (i + 1) es).1, (tier1Aux (i + 1) es).2) by
              simp [tier1Aux, hnull', hg]] at hr
        rcases List.mem_cons.mp hr with rfl | hr
        · rcases (Bool.and_eq_true _ _).mp hg with ⟨h1, h2⟩
          exact ⟨truthyV_getD_of_truthy h1, truthyV_getD_of_truthy h2⟩
        · exact ih (i + 1) r hr
      · rw [show tier1Aux i (e :: es) = tier1Aux (i + 1) es by
            simp [tier1Aux, hnull', Bool.eq_false_iff.mpr hg]] at hr
        exact ih (i + 1) r hr

/-! ### Tier-1 success: C1 and C5 amended -/

/-- C1, amended: for every input whose brace block parses as a JSON value
with a NON-EMPTY `risks` array all of whose entries have truthy
`description` and `category`, the extractor returns exactly one record per
entry, in array order (record `j` is built from entry `j`), with ids
`risk-1` … `risk-n`, and entries missing `likelihood`/`impact` get
"Medium".  (The non-emptiness proviso is forced by the counterexample: an
empty array makes tier 1 yield nothing, and the extractor falls through to
the text tiers.) -/
theorem C1_amended (s block : String) (v : Json) (rs : List Json)
    (hb : braceMatch s = some block)
    (hj : jsonParse block = some v)
    (hr : getField v "risks" = some (.arr rs))
    (hne : rs ≠ [])
    (hall : ∀ e ∈ rs, jsTruthy (getField e "description") = true
        ∧ jsTruthy (getField e "category") = true) :
    (parseRisksFromLLMResponse s).length = rs.length
    ∧ (parseRisksFromLLMResponse s).map Risk.id
        = (List.range' 1 rs.length).map (fun k => "risk-" ++ toString k)
    ∧ ∀ (j : Nat) (e : Json) (r : Risk),
        rs[j]? = some e → (parseRisksFromLLMResponse s)[j]? = some r →
        r = mkJsonRisk j e
        ∧ (getField e "likelihood" = none → r.likelihood = .str "Medium")
        ∧ (getField e "impact" = none → r.impact = .str "Medium") := by
  have hent : tier1Entries s = rs := by
    simp [tier1Entries, hb, hj, hr]
  obtain ⟨hthrew, hlen, hids, hget⟩ := tier1Aux_all rs 0 hall
  have hemp : (tier1Aux 0 rs).1.isEmpty = false := by
    cases haux : (tier1Aux 0 rs).1 with
    | nil =>
      rw [haux] at hlen
      exact absurd (List.eq_nil_of_length_eq_zero hlen.symm) hne
    | cons a l => rfl
  have ht1 : tier1 s = ((tier1Aux 0 rs).1, true) := by
    simp [tier1, hent, hthrew, hemp]
  have hres : parseRisksFromLLMResponse s = (tier1Aux 0 rs).1 := by
    simp [parseRisksFromLLMResponse, ht1]
  refine ⟨by rw [hres]; exact hlen, by rw [hres]; simpa using hids, ?_⟩
  intro j e r hrs hpr
  rw [hres] at hpr
  have hj' := hget j
  rw [hrs, hpr] at hj'
  have hr' : r = mkJsonRisk j e := by
    have := Option.some.inj hj'
    simpa using this
  subst hr'
  refine ⟨rfl, fun hl => ?_, fun hi => ?_⟩
  · simp [mkJsonRisk, jsOr, hl]
  · simp [mkJsonRisk, jsOr, hi]

/-- Witness for C1 at a concrete valid input. -/
theorem C1_witness : (parseRisksFromLLMResponse inGoodJson).length = 1 :=
  (C1_amended inGoodJson inGoodJson objVendor [entryVendor] rfl rfl rfl
    (by simp) (by decide)).1

/-- C5, amended: tier-1 precedence holds provided additionally that no
entry of the `risks` array is `null` — a `null` entry raises a `TypeError`
at `risk.description`, aborting tier 1, which falls through to the text
tiers (the counterexample shows precedence failing without the proviso).
With the proviso, the extractor returns exactly the JSON-tier records and
the later tiers contribute nothing. -/
theorem C5_amended (s block : String) (v : Json) (rs : List Json)
    (hb : braceMatch s = some block)
    (hj : jsonParse block = some v)
    (hr : getField v "risks" = some (.arr rs))
    (hnn : ∀ e ∈ rs, e.isNull = false)
    (hex : ∃ e ∈ rs, jsTruthy (getField e "description") = true
        ∧ jsTruthy (getField e "category") = true) :
    parseRisksFromLLMResponse s = (tier1Aux 0 rs).1 := by
  have hent : tier1Entries s = rs := by
    simp [tier1Entries, hb, hj, hr]
  have hthrew := tier1Aux_no_throw rs 0 hnn
  have hnil := tier1Aux_ne_nil rs 0 hnn hex
  have hemp : (tier1Aux 0 rs).1.isEmpty = false := by
    cases haux : (tier1Aux 0 rs).1 with
    | nil => exact absurd haux hnil
    | cons a l => rfl
  have ht1 : tier1 s = ((tier1Aux 0 rs).1, true) := by
    simp [tier1, hent, hthrew, hemp]
  simp [parseRisksFromLLMResponse, ht1]

/-- Witness for C5 at a concrete valid input. -/
theorem C5_witness :
    parseRisksFromLLMResponse inGoodJson = (tier1Aux 0 [entryVendor]).1 :=
  C5_amended inGoodJson inGoodJson objVendor [entryVendor] rfl rfl rfl
    (by decide) ⟨entryVendor, by simp, by decide, by decide⟩

/-! ### Section-tier and keyword-tier record facts: C2 amended -/

/-- A section-tier record exists only when the resolved description passed
the ≥ 10 check (which runs before `cleanText`); the stored description and
id are as constructed. -/
theorem parseRiskSection_some {sec : String} {n : Nat} {r : Risk}
    (h : parseRiskSection sec n = some r) :
    10 ≤ (resolvedDesc sec).length
    ∧ r.description = .str (cleanText (resolvedDesc sec))
    ∧ r.id = "risk-" ++ toString n := by
  unfold parseRiskSection at h
  by_cases hcond : resolvedDesc sec = "" ∨ (resolvedDesc sec).length < 10
  · rw [if_pos hcond] at h
    exact absurd h (by simp)
  · rw [if_neg hcond] at h
    push_neg at hcond
    have hrec := Option.some.inj h
    exact ⟨by omega, by rw [← hrec]; rfl, by rw [← hrec]; rfl⟩

/-- Every keyword-tier record is built from one of the scanned sentences
(trimmed, at least 20 characters). -/
theorem extractAux_mem : ∀ (sents : List String) (c l1 l2 : Nat), ∀ r ∈ extractAux sents c l1 l2,
    ∃ t ∈ sents, 20 ≤ (jsTrim t).length ∧ r.description = .str (cleanText (jsTrim t)) := by
  intro sents
  induction sents with
  | nil => intro c l1 l2 r hr; exact absurd hr (List.not_mem_nil r)
  | cons sent rest ih =>
    intro c l1 l2 r hr
    rw [extractAux] at hr
    by_cases hl : (jsTrim sent).length < 20
    · rw [if_pos hl] at hr
      obtain ⟨t, ht, h⟩ := ih c l1 l2 r hr
      exact ⟨t, List.mem_cons_of_mem _ ht, h⟩
    · rw [if_neg hl] at hr
      have h20 : 20 ≤ (jsTrim sent).length := by omega
      cases hk1 : kwTest riskKws (jsTrim sent).data l1 with
      | some e1 =>
        simp only [hk1] at hr
        by_cases hc : c < 10
        · rw [if_pos hc] at hr
          rcases List.mem_cons.mp hr with rfl | hr
          · exact ⟨sent, List.mem_cons_self _ _, h20, rfl⟩
          · obtain ⟨t, ht, h⟩ := ih (c + 1) e1 l2 r hr
            exact ⟨t, List.mem_cons_of_mem _ ht, h⟩
        · rw [if_neg hc] at hr
          obtain ⟨t, ht, h⟩ := ih c e1 l2 r hr
          exact ⟨t, List.mem_cons_of_mem _ ht, h⟩
      | none =>
        simp only [hk1] at hr
        cases hk2 : kwTest domainKws (jsTrim sent).data l2 with
        | some e2 =>
          simp only [hk2] at hr
          by_cases hc : c < 10
          · rw [if_pos hc] at hr
            rcases List.mem_cons.mp hr with rfl | hr
            · exact ⟨sent, List.mem_cons_self _ _, h20, rfl⟩
            · obtain ⟨t, ht, h⟩ := ih (c + 1) 0 e2 r hr
              exact ⟨t, List.mem_cons_of_mem _ ht, h⟩
          · rw [if_neg hc] at hr
            obtain ⟨t, ht, h⟩ := ih c 0 e2 r hr
            exact ⟨t, List.mem_cons_of_mem _ ht, h⟩
        | none =>
          simp only [hk2] at hr
          obtain ⟨t, ht, h⟩ := ih c 0 0 r hr
          exact ⟨t, List.mem_cons_of_mem _ ht, h⟩

/-- C2, amended: JSON-tier records have truthy `description` and
`category` exactly as extracted from the entry; a section-tier record is
only produced when its resolved description (label capture or first
paragraph) is at least 10 characters long — but the stored description is
the cleaned-up text, which may be shorter than 10 characters or even
empty, and the stored category may likewise be emptied by cleanup;
keyword-tier records take their description from a sentence that is
longer than 20 characters after trimming. -/
theorem C2_amended (s sec : String) (n : Nat) (r : Risk) :
    (r ∈ (tier1 s).1 →
        jsTruthyV r.description = true ∧ jsTruthyV r.category = true)
    ∧ (parseRiskSection sec n = some r →
        10 ≤ (resolvedDesc sec).length
        ∧ r.description = .str (cleanText (resolvedDesc sec)))
    ∧ (r ∈ extractRisksFromText s →
        ∃ t ∈ sentenceSplit s, 20 < (jsTrim t).length
          ∧ r.description = .str (cleanText (jsTrim t))) := by
  refine ⟨?_, ?_, ?_⟩
  · intro hr
    exact tier1Aux_mem (tier1Entries s) 0 r hr
  · intro h
    exact ⟨(parseRiskSection_some h).1, (parseRiskSection_some h).2.1⟩
  · intro hr
    obtain ⟨t, ht, _, hdesc⟩ := extractAux_mem _ 0 0 0 r hr
    have hmem := List.mem_filter.mp ht
    exact ⟨t, hmem.1, of_decide_eq_true hmem.2, hdesc⟩

/-- Witness for C2 at a concrete JSON-tier record. -/
theorem C2_witness :
    jsTruthyV recVendor.description = true ∧ jsTruthyV recVendor.category = true :=
  (C2_amended inGoodJson "" 1 recVendor).1
    (by rw [show (tier1 inGoodJson).1 = [recVendor] from rfl]
        exact List.mem_singleton.mpr rfl)

/-! ### Id bookkeeping: C3 amended -/

theorem tier1Aux_ids (rs : List Json) : ∀ i : Nat,
    (tier1Aux i rs).1.map Risk.id
      = (acceptedIdx i rs).map (fun k => "risk-" ++ toString (k + 1)) := by
  induction rs with
  | nil => intro i; rfl
  | cons e es ih =>
    intro i
    by_cases hnull : e.isNull = true
    · simp [tier1Aux, acceptedIdx, hnull]
    · have hnull' : e.isNull = false := Bool.eq_false_iff.mpr hnull
      by_cases hg : (jsTruthy (getField e "description")
          && jsTruthy (getField e "category")) = true
      · rw [show tier1Aux i (e :: es)
            = (mkJsonRisk i e :: (tier1Aux (i + 1) es).1, (tier1Aux (i + 1) es).2) by
              simp [tier1Aux, hnull', hg],
          show acceptedIdx i (e :: es) = i :: acceptedIdx (i + 1) es by
            simp [acceptedIdx, hnull', hg]]
        simp only [List.map_cons, ih (i + 1)]
        rfl
      · rw [show tier1Aux i (e :: es) = tier1Aux (i + 1) es by
            simp [tier1Aux, hnull', Bool.eq_false_iff.mpr hg],
          show acceptedIdx i (e :: es) = acceptedIdx (i + 1) es by
            simp [acceptedIdx, hnull', Bool.eq_false_iff.mpr hg]]
        exact ih (i + 1)

theorem acceptedIdx_lb (rs : List Json) : ∀ i k : Nat, k ∈ acceptedIdx i rs → i ≤ k := by
  induction rs with
  | nil => intro i k hk; exact absurd hk (List.not_mem_nil k)
  | cons e es ih =>
    intro i k hk
    by_cases hnull : e.isNull = true
    · rw [show acceptedIdx i (e :: es) = [] by simp [acceptedIdx, hnull]] at hk
      exact absurd hk (List.not_mem_nil k)
    · have hnull' : e.isNull = false := Bool.eq_false_iff.mpr hnull
      by_cases hg : (jsTruthy (getField e "description")
          && jsTruthy (getField e "category")) = true
      · rw [show acceptedIdx i (e :: es) = i :: acceptedIdx (i + 1) es by
            simp [acceptedIdx, hnull', hg]] at hk
        rcases List.mem_cons.mp hk with rfl | hk
        · exact le_refl k
        · have := ih (i + 1) k hk; omega
      · rw [show acceptedIdx i (e :: es) = acceptedIdx (i + 1) es by
            simp [acceptedIdx, hnull', Bool.eq_false_iff.mpr hg]] at hk
        have := ih (i + 1) k hk; omega

theorem acceptedIdx_pairwise (rs : List Json) : ∀ i : Nat,
    (acceptedIdx i rs).Pairwise (· < ·) := by
  induction rs with
  | nil => intro i; exact List.Pairwise.nil
  | cons e es ih =>
    intro i
    by_cases hnull : e.isNull = true
    · rw [show acceptedIdx i (e :: es) = [] by simp [acceptedIdx, hnull]]
      exact List.Pairwise.nil
    · have hnull' : e.isNull = false := Bool.eq_false_iff.mpr hnull
      by_cases hg : (jsTruthy (getField e "description")
          && jsTruthy (getField e "category")) = true
      · rw [show acceptedIdx i (e :: es) = i :: acceptedIdx (i + 1) es by
            simp [acceptedIdx, hnull', hg]]
        refine List.Pairwise.cons ?_ (ih (i + 1))
        intro k hk
        have := acceptedIdx_lb es (i + 1) k hk; omega
      · rw [show acceptedIdx i (e :: es) = acceptedIdx (i + 1) es by
            simp [acceptedIdx, hnull', Bool.eq_false_iff.mpr hg]]
        exact ih (i + 1)

theorem tier2Aux_ids (secs : List String) : ∀ i : Nat,
    (tier2Aux secs i).map Risk.id
      = (acceptedSecIdxAux secs i).map (fun k => "risk-" ++ toString (k + 1)) := by
  induction secs with
  | nil => intro i; rfl
  | cons sec rest ih =>
    intro i
    cases hp : parseRiskSection (jsTrim sec) (i + 1) with
    | some r =>
      simp only [tier2Aux, acceptedSecIdxAux, hp, List.map_cons]
      rw [(parseRiskSection_some hp).2.2, ih (i + 1)]
    | none =>
      simp only [tier2Aux, acceptedSecIdxAux, hp]
      exact ih (i + 1)

theorem acceptedSecIdxAux_lb (secs : List String) : ∀ i k : Nat,
    k ∈ acceptedSecIdxAux secs i → i ≤ k := by
  induction secs with
  | nil => intro i k hk; exact absurd hk (List.not_mem_nil k)
  | cons sec rest ih =>
    intro i k hk
    cases hp : parseRiskSection (jsTrim sec) (i + 1) with
    | some r =>
      rw [show acceptedSecIdxAux (sec :: rest) i = i :: acceptedSecIdxAux rest (i + 1) by
          simp [acceptedSecIdxAux, hp]] at hk
      rcases List.mem_cons.mp hk with rfl | hk
      · exact le_refl k
      · have := ih (i + 1) k hk; omega
    | none =>
      rw [show acceptedSecIdxAux (sec :: rest) i = acceptedSecIdxAux rest (i + 1) by
          simp [acceptedSecIdxAux, hp]] at hk
      have := ih (i + 1) k hk; omega

theorem acceptedSecIdxAux_pairwise (secs : List String) : ∀ i : Nat,
    (acceptedSecIdxAux secs i).Pairwise (· < ·) := by
  induction secs with
  | nil => intro i; exact List.Pairwise.nil
  | cons sec rest ih =>
    intro i
    cases hp : parseRiskSection (jsTrim sec) (i + 1) with
    | some r =>
      rw [show acceptedSecIdxAux (sec :: rest) i = i :: acceptedSecIdxAux rest (i + 1) by
          simp [acceptedSecIdxAux, hp]]
      refine List.Pairwise.cons ?_ (ih (i + 1))
      intro k hk
      have := acceptedSecIdxAux_lb rest (i + 1) k hk; omega
    | none =>
      rw [show acceptedSecIdxAux (sec :: rest) i = acceptedSecIdxAux rest (i + 1) by
          simp [acceptedSecIdxAux, hp]]
      exact ih (i + 1)

theorem extractAux_ids : ∀ (sents : List String) (c l1 l2 : Nat),
    (extractAux sents c l1 l2).map Risk.id
      = (List.range' (c + 1) (extractAux sents c l1 l2).length).map
          (fun k => "risk-" ++ toString k) := by
  intro sents
  induction sents with
  | nil => intro c l1 l2; rfl
  | cons sent rest ih =>
    intro c l1 l2
    rw [extractAux]
    by_cases hl : (jsTrim sent).length < 20
    · rw [if_pos hl]; exact ih c l1 l2
    · rw [if_neg hl]
      split
      · next e1 _ =>
        by_cases hc : c < 10
        · rw [if_pos hc]
          simp only [List.map_cons, List.length_cons, List.range'_succ, ih (c + 1) e1 l2]
          rfl
        · rw [if_neg hc]; exact ih c e1 l2
      · split
        · next e2 _ =>
          by_cases hc : c < 10
          · rw [if_pos hc]
            simp only [List.map_cons, List.length_cons, List.range'_succ, ih (c + 1) 0 e2]
            rfl
          · rw [if_neg hc]; exact ih c 0 e2
        · exact ih c 0 0

/-- C3, amended: within each tier considered alone, record ids are
`risk-(k+1)` for the strictly increasing list of source positions `k` of
the accepted entries (tier 1) or sections (tier 2) — so skipped items
leave gaps rather than being renumbered — while the keyword tier numbers
its records densely `risk-1` … `risk-n` by running count.  (Pairwise
distinctness of the returned ids across tiers fails: the counterexample
shows a tier-1 `TypeError` concatenating tier-1 and tier-2 records with
repeated ids.) -/
theorem C3_amended (s : String) (rs : List Json) (i : Nat) :
    (tier1Aux i rs).1.map Risk.id
        = (acceptedIdx i rs).map (fun k => "risk-" ++ toString (k + 1))
    ∧ (acceptedIdx i rs).Pairwise (· < ·)
    ∧ (tier2Records s).map Risk.id
        = (acceptedSecIdx s).map (fun k => "risk-" ++ toString (k + 1))
    ∧ (acceptedSecIdx s).Pairwise (· < ·)
    ∧ (extractRisksFromText s).map Risk.id
        = (List.range' 1 (extractRisksFromText s).length).map
            (fun k => "risk-" ++ toString k) :=
  ⟨tier1Aux_ids rs i, acceptedIdx_pairwise rs i,
   tier2Aux_ids (sections s) 0, acceptedSecIdxAux_pairwise (sections s) 0,
   extractAux_ids _ 0 0 0⟩

/-! ### Split coverage: a brace survives the header split (for C4) -/

theorem takeWhile_take_eq (p : Char → Bool) :
    ∀ l : List Char, l.take ((l.takeWhile p).length) = l.takeWhile p := by
  intro l
  induction l with
  | nil => rfl
  | cons x xs ih =>
    by_cases hp : p x
    · simp [List.takeWhile_cons, hp, ih]
    · simp [List.takeWhile_cons, hp]

theorem mem_take_takeWhile {p : Char → Bool} {l : List Char} {c : Char}
    (h : c ∈ l.take ((l.takeWhile p).length)) : p c = true := by
  rw [takeWhile_take_eq] at h
  exact List.mem_takeWhile_imp h

theorem startsCI_take_mem :
    ∀ (pat l : List Char) {c : Char}, startsCI pat l = true →
      c ∈ l.take pat.length → c.toLower ∈ pat := by
  intro pat
  induction pat with
  | nil => intro l c _ h; exact absurd h (by simp)
  | cons p ps ih =>
    intro l c hs hm
    cases l with
    | nil => exact absurd hs (by simp [startsCI])
    | cons x xs =>
      rcases (Bool.and_eq_true _ _).mp hs with ⟨h1, h2⟩
      rcases List.mem_cons.mp (by simpa using hm) with rfl | hm'
      · rw [show c.toLower = p from of_decide_eq_true h1]
        exact List.mem_cons_self p ps
      · exact List.mem_cons_of_mem p (ih xs h2 hm')

theorem headerAlt1_no_brace {l : List Char} {n : Nat}
    (h : headerAlt1 l = some n) : '{' ∉ l.take n := by
  simp only [headerAlt1] at h
  split at h
  · exact absurd h (by simp)
  · split at h
    · next r1 heq =>
      split at h
      · next hrisk =>
        have hn := Option.some.inj h
        intro hmem
        rw [← hn] at hmem
        rw [show (l.takeWhile Char.isDigit).length + 1 + (r1.takeWhile isWsJS).length + 4
              = (l.takeWhile Char.isDigit).length
                + (1 + (r1.takeWhile isWsJS).length + 4) from by omega,
            List.take_add] at hmem
        rcases List.mem_append.mp hmem with h1 | h2
        · exact absurd (mem_take_takeWhile h1) (by decide)
        · rw [heq, show 1 + (r1.takeWhile isWsJS).length + 4
              = ((r1.takeWhile isWsJS).length + 4) + 1 from by omega,
            List.take_succ_cons] at h2
          rcases List.mem_cons.mp h2 with h3 | h3
          · exact absurd h3 (by decide)
          · rw [List.take_add] at h3
            rcases List.mem_append.mp h3 with h4 | h4
            · exact absurd (mem_take_takeWhile h4) (by decide)
            · exact absurd (startsCI_take_mem "risk".data _ hrisk h4) (by decide)
      · exact absurd h (by simp)
    · exact absurd h (by simp)

theorem headerAlt2_no_brace {l : List Char} {n : Nat}
    (h : headerAlt2 l = some n) : '{' ∉ l.take n := by
  simp only [headerAlt2] at h
  split at h
  · next hrisk =>
    split at h
    · exact absurd h (by simp)
    · split at h
      · next x xs heq =>
        have hn := Option.some.inj h
        intro hmem
        rw [← hn] at hmem
        rw [show 4 + ((l.drop 4).takeWhile isWsJS).length
              + (((l.drop 4).drop ((l.drop 4).takeWhile isWsJS).length).takeWhile
                  Char.isDigit).length + 1
              = 4 + (((l.drop 4).takeWhile isWsJS).length
                + ((((l.drop 4).drop ((l.drop 4).takeWhile isWsJS).length).takeWhile
                    Char.isDigit).length + 1)) from by omega,
            List.take_add] at hmem
        rcases List.mem_append.mp hmem with h1 | h2
        · exact absurd (startsCI_take_mem "risk".data _ hrisk h1) (by decide)
        · rw [List.take_add] at h2
          rcases List.mem_append.mp h2 with h3 | h4
          · exact absurd (mem_take_takeWhile h3) (by decide)
          · rw [List.take_add] at h4
            rcases List.mem_append.mp h4 with h5 | h6
            · exact absurd (mem_take_takeWhile h5) (by decide)
            · rw [heq] at h6
              simp only [List.take_succ_cons, List.take_zero, List.mem_singleton] at h6
              exact absurd h6 (by decide)
      · exact absurd h (by simp)
  · exact absurd h (by simp)

theorem headerAlt3_no_brace {l : List Char} {n : Nat}
    (h : headerAlt3 l = some n) : '{' ∉ l.take n := by
  simp only [headerAlt3] at h
  split at h
  · next hrisk =>
    split at h
    · exact absurd h (by simp)
    · have hn := Option.some.inj h
      intro hmem
      rw [← hn] at hmem
      rw [show 4 + ((l.drop 4).takeWhile isWsJS).length
            + (((l.drop 4).drop ((l.drop 4).takeWhile isWsJS).length).takeWhile
                Char.isDigit).length
            = 4 + (((l.drop 4).takeWhile isWsJS).length
              + ((((l.drop 4).drop ((l.drop 4).takeWhile isWsJS).length).takeWhile
                  Char.isDigit).length)) from by omega,
          List.take_add] at hmem
      rcases List.mem_append.mp hmem with h1 | h2
      · exact absurd (startsCI_take_mem "risk".data _ hrisk h1) (by decide)
      · rw [List.take_add] at h2
        rcases List.mem_append.mp h2 with h3 | h4
        · exact absurd (mem_take_takeWhile h3) (by decide)
        · exact absurd (mem_take_takeWhile h4) (by decide)
  · exact absurd h (by simp)

theorem headerMatchLen_no_brace {b : Bool} {l : List Char} {n : Nat}
    (h : headerMatchLen b l = some n) : '{' ∉ l.take n := by
  unfold headerMatchLen at h
  cases h1 : headerAlt1 l with
  | some m =>
    rw [h1] at h
    simp only [Option.orElse] at h
    exact headerAlt1_no_brace (h1.trans (congrArg _ (Option.some.inj h)))
  | none =>
    rw [h1] at h
    simp only [Option.orElse] at h
    cases h2 : headerAlt2 l with
    | some m =>
      rw [h2] at h
      simp only [Option.orElse] at h
      exact headerAlt2_no_brace (h2.trans (congrArg _ (Option.some.inj h)))
    | none =>
      rw [h2] at h
      simp only [Option.orElse] at h
      split at h
      · exact headerAlt3_no_brace h
      · exact absurd h (by simp)

theorem mem_dropWhile_of_neg {p : Char → Bool} {c : Char} :
    ∀ {l : List Char}, c ∈ l → p c = false → c ∈ l.dropWhile p := by
  intro l
  induction l with
  | nil => intro h _; exact absurd h (List.not_mem_nil c)
  | cons x xs ih =>
    intro hm hp
    by_cases hx : p x
    · rw [List.dropWhile_cons_of_pos hx]
      rcases List.mem_cons.mp hm with rfl | hm'
      · rw [hx] at hp; exact absurd hp (by simp)
      · exact ih hm' hp
    · rw [List.dropWhile_cons_of_neg hx]
      exact hm

theorem mem_trim_of_not_ws {c : Char} {l : List Char}
    (hm : c ∈ l) (hw : isWsJS c = false) : c ∈ trimChars l := by
  unfold trimChars
  rw [List.mem_reverse]
  exact mem_dropWhile_of_neg (List.mem_reverse.mpr (mem_dropWhile_of_neg hm hw)) hw

theorem headerSplitAux_cover : ∀ (fuel : Nat) (b : Bool) (rest acc : List Char),
    ('{' ∈ rest ∨ '{' ∈ acc) →
    ∃ part ∈ headerSplitAux fuel b rest acc, '{' ∈ part := by
  intro fuel
  induction fuel with
  | zero =>
    intro b rest acc hmem
    refine ⟨acc.reverse ++ rest, List.mem_singleton.mpr rfl, ?_⟩
    rcases hmem with h | h
    · exact List.mem_append_right _ h
    · exact List.mem_append_left _ (List.mem_reverse.mpr h)
  | succ fuel ih =>
    intro b rest acc hmem
    cases rest with
    | nil =>
      rcases hmem with h | h
      · exact absurd h (List.not_mem_nil _)
      · exact ⟨acc.reverse, List.mem_singleton.mpr rfl, List.mem_reverse.mpr h⟩
    | cons c cs =>
      cases hm : headerMatchLen b (c :: cs) with
      | some n =>
        cases n with
        | zero =>
          have hstep : headerSplitAux (fuel + 1) b (c :: cs) acc
              = headerSplitAux fuel false cs (c :: acc) := by
            simp [headerSplitAux, hm]
          rw [hstep]
          apply ih
          rcases hmem with h | h
          · rcases List.mem_cons.mp h with rfl | h'
            · exact Or.inr (List.mem_cons_self _ _)
            · exact Or.inl h'
          · exact Or.inr (List.mem_cons_of_mem _ h)
        | succ m =>
          have hstep : headerSplitAux (fuel + 1) b (c :: cs) acc
              = acc.reverse :: headerSplitAux fuel false (cs.drop m) [] := by
            simp [headerSplitAux, hm]
          rw [hstep]
          by_cases hacc : '{' ∈ acc
          · exact ⟨acc.reverse, List.mem_cons_self _ _, List.mem_reverse.mpr hacc⟩
          · have hrest : '{' ∈ c :: cs := by
              rcases hmem with h | h
              · exact h
              · exact absurd h hacc
            have hnb := headerMatchLen_no_brace hm
            have hdropmem : '{' ∈ (c :: cs).drop (m + 1) := by
              have hsplit : (c :: cs) = (c :: cs).take (m + 1) ++ (c :: cs).drop (m + 1) :=
                (List.take_append_drop _ _).symm
              rw [hsplit] at hrest
              rcases List.mem_append.mp hrest with h | h
              · exact absurd h hnb
              · exact h
            rw [List.drop_succ_cons] at hdropmem
            obtain ⟨part, hp, hb2⟩ := ih false (cs.drop m) [] (Or.inl hdropmem)
            exact ⟨part, List.mem_cons_of_mem _ hp, hb2⟩
      | none =>
        have hstep : headerSplitAux (fuel + 1) b (c :: cs) acc
            = headerSplitAux fuel false cs (c :: acc) := by
          simp [headerSplitAux, hm]
        rw [hstep]
        apply ih
        rcases hmem with h | h
        · rcases List.mem_cons.mp h with rfl | h'
          · exact Or.inr (List.mem_cons_self _ _)
          · exact Or.inl h'
        · exact Or.inr (List.mem_cons_of_mem _ h)

theorem firstIdx_mem : ∀ {c : Char} {l : List Char} {i : Nat},
    firstIdx c l = some i → c ∈ l := by
  intro c l
  induction l with
  | nil => intro i h; exact absurd h (by simp [firstIdx])
  | cons x xs ih =>
    intro i h
    unfold firstIdx at h
    by_cases hx : x = c
    · rw [hx]; exact List.mem_cons_self c xs
    · rw [if_neg hx] at h
      cases hf : firstIdx c xs with
      | none => rw [hf] at h; exact absurd h (by simp)
      | some j => exact List.mem_cons_of_mem x (ih hf)

theorem braceMatch_mem {s : String} {b : String}
    (h : braceMatch s = some b) : '{' ∈ s.data := by
  unfold braceMatch at h
  cases h1 : firstIdx '{' s.data with
  | none => rw [h1] at h; exact absurd h (by simp)
  | some i => exact firstIdx_mem h1

theorem sections_ne_nil {s : String} (h : '{' ∈ s.data) : sections s ≠ [] := by
  obtain ⟨part, hp, hb⟩ :=
    headerSplitAux_cover (s.data.length + 1) true s.data [] (Or.inl h)
  have hmem : (⟨part⟩ : String) ∈ headerSplit s := List.mem_map_of_mem _ hp
  have htrim : jsTrim (⟨part⟩ : String) ≠ "" := by
    intro heq
    have hdat : trimChars part = [] := congrArg String.data heq
    have h1 : '{' ∈ trimChars part := mem_trim_of_not_ws hb (by decide)
    rw [hdat] at h1
    exact absurd h1 (List.not_mem_nil _)
  exact List.ne_nil_of_mem (List.mem_filter.mpr ⟨hmem, decide_eq_true htrim⟩)

/-! ### Claim C4 -/

theorem tier1_fst_eq (s : String) :
    (tier1 s).1 = (tier1Aux 0 (tier1Entries s)).1 := rfl

theorem tier1_snd_true_ne_nil {s : String} (h : (tier1 s).2 = true) :
    (tier1 s).1 ≠ [] := by
  have h2 : (!(tier1Aux 0 (tier1Entries s)).2
      && !(tier1Aux 0 (tier1Entries s)).1.isEmpty) = true := h
  rcases (Bool.and_eq_true _ _).mp h2 with ⟨_, hb⟩
  rw [tier1_fst_eq]
  cases hl : (tier1Aux 0 (tier1Entries s)).1 with
  | nil => rw [hl] at hb; exact absurd hb (by simp)
  | cons a l => simp

theorem tier1_fst_ne_brace {s : String} (h : (tier1 s).1 ≠ []) :
    ∃ b, braceMatch s = some b := by
  rw [tier1_fst_eq] at h
  cases hb : braceMatch s with
  | some b => exact ⟨b, rfl⟩
  | none =>
    have hent : tier1Entries s = [] := by simp [tier1Entries, hb]
    rw [hent] at h
    exact absurd rfl h

/-- C4, confirmed: the extractor is total by construction (every JavaScript
exception — the `SyntaxError` of `JSON.parse` and the `TypeError` of a
property access on `null` — is modelled as a caught, non-propagating
outcome), and it returns the empty list exactly when no tier yields any
record: tier 1 accumulated nothing, the section tier produced nothing and
the keyword tier produced nothing. -/
theorem C4_total_empty_iff (s : String) :
    parseRisksFromLLMResponse s = []
    ↔ (tier1 s).1 = [] ∧ tier2Records s = [] ∧ extractRisksFromText s = [] := by
  by_cases h2 : (tier1 s).2 = true
  · have hne := tier1_snd_true_ne_nil h2
    have hres : parseRisksFromLLMResponse s = (tier1 s).1 := by
      simp [parseRisksFromLLMResponse, h2]
    rw [hres]
    constructor
    · intro h; exact absurd h hne
    · intro ⟨h, _, _⟩; exact absurd h hne
  · have h2' : (tier1 s).2 = false := Bool.eq_false_iff.mpr h2
    by_cases hsec : (sections s).isEmpty = true
    · have hsecnil : sections s = [] := by
        cases hl : sections s with
        | nil => rfl
        | cons a l => rw [hl] at hsec; exact absurd hsec (by simp)
      have hres : parseRisksFromLLMResponse s = extractRisksFromText s := by
        simp [parseRisksFromLLMResponse, h2', hsec]
      have ht1 : (tier1 s).1 = [] := by
        by_contra hne
        obtain ⟨b, hb⟩ := tier1_fst_ne_brace hne
        exact absurd hsecnil (sections_ne_nil (braceMatch_mem hb))
      have ht2 : tier2Records s = [] := by
        unfold tier2Records
        rw [hsecnil]
        rfl
      rw [hres]
      constructor
      · intro h; exact ⟨ht1, ht2, h⟩
      · intro ⟨_, _, h⟩; exact h
    · have hsec' : (sections s).isEmpty = false := Bool.eq_false_iff.mpr hsec
      by_cases hrecs : ((tier1 s).1 ++ tier2Records s).isEmpty = true
      · have hres : parseRisksFromLLMResponse s = extractRisksFromText s := by
          simp only [parseRisksFromLLMResponse, h2', hsec', Bool.false_eq_true,
            if_false, hrecs, if_true]
        have hnil : (tier1 s).1 = [] ∧ tier2Records s = [] := by
          have := List.isEmpty_iff.mp hrecs
          exact List.append_eq_nil.mp this
        rw [hres]
        constructor
        · intro h; exact ⟨hnil.1, hnil.2, h⟩
        · intro ⟨_, _, h⟩; exact h
      · have hrecs' : ((tier1 s).1 ++ tier2Records s).isEmpty = false :=
          Bool.eq_false_iff.mpr hrecs
        have hres : parseRisksFromLLMResponse s = (tier1 s).1 ++ tier2Records s := by
          simp only [parseRisksFromLLMResponse, h2', hsec', Bool.false_eq_true,
            if_false, hrecs', if_true]
        have hne : (tier1 s).1 ++ tier2Records s ≠ [] := by
          intro h
          rw [h] at hrecs'
          exact absurd hrecs' (by simp)
        rw [hres]
        constructor
        · intro h; exact absurd h hne
        · intro ⟨ha, hb, _⟩
          rw [ha, hb] at hne
          exact absurd rfl hne

/-! ### Claims C6 and C10, amended -/

/-- C6, amended: an input with no brace block, no header boundary and no
`Description` label, all of whose sentences are at most 20 characters
after trimming, yields the empty list provided additionally that the first
blank-line-separated paragraph of the trimmed input is shorter than 10
characters (otherwise the section tier returns the whole input as one
record — the counterexample). -/
theorem C6_amended (s : String)
    (hb : braceMatch s = none)
    (hh : headerSplit s = [s])
    (hd : descMatch (jsTrim s) = none)
    (hp : (extractFirstParagraph (jsTrim s)).length < 10)
    (hs : ∀ t ∈ sentenceSplit s, (jsTrim t).length ≤ 20) :
    parseRisksFromLLMResponse s = [] := by
  have ht3 : extractRisksFromText s = [] := by
    unfold extractRisksFromText
    have hfil : (sentenceSplit s).filter (fun t => 20 < (jsTrim t).length) = [] := by
      refine List.filter_eq_nil_iff.mpr ?_
      intro t ht
      have := hs t ht
      simp only [decide_eq_true_eq, not_lt]
      omega
    rw [hfil]
    rfl
  have hent : tier1Entries s = [] := by simp [tier1Entries, hb]
  have ht1 : tier1 s = ([], false) := by simp [tier1, hent, tier1Aux]
  by_cases hst : jsTrim s = ""
  · have hsec : sections s = [] := by
      unfold sections
      rw [hh]
      simp [hst]
    have hres : parseRisksFromLLMResponse s = extractRisksFromText s := by
      simp [parseRisksFromLLMResponse, ht1, hsec]
    rw [hres, ht3]
  · have hsec : sections s = [s] := by
      unfold sections
      rw [hh]
      simp [hst]
    have hps : parseRiskSection (jsTrim s) 1 = none := by
      unfold parseRiskSection
      rw [if_pos]
      right
      simpa [resolvedDesc, hd] using hp
    have ht2 : tier2Records s = [] := by
      unfold tier2Records
      rw [hsec]
      simp [tier2Aux, hps]
    have hres : parseRisksFromLLMResponse s = extractRisksFromText s := by
      simp [parseRisksFromLLMResponse, ht1, hsec, ht2]
    rw [hres, ht3]

/-- Witness for C6 at three blank-line-separated short sentences. -/
theorem C6_witness : parseRisksFromLLMResponse inThreeParagraphs = [] :=
  C6_amended inThreeParagraphs rfl rfl rfl (by decide) (by decide)

/-- C10, amended: when tier 1 yields nothing, the header regex finds no
boundary and the trimmed input carries no `Description` or `Category`
label, the whole input is the single section: if its first paragraph is at
least 10 characters the extractor returns exactly one record with the
fallback category "Operational Risks" and the cleaned first paragraph as
description; the keyword tier is reached only when that first paragraph is
shorter than 10 characters (or the input is blank).  The label provisos
are forced by the counterexample. -/
theorem C10_amended (s : String)
    (h1 : tier1 s = ([], false))
    (hh : headerSplit s = [s])
    (hst : jsTrim s ≠ "")
    (hd : descMatch (jsTrim s) = none)
    (hc : catMatch (jsTrim s) = none) :
    (10 ≤ (extractFirstParagraph (jsTrim s)).length →
      ∃ r, parseRisksFromLLMResponse s = [r]
        ∧ r.category = .str "Operational Risks"
        ∧ r.description = .str (cleanText (extractFirstParagraph (jsTrim s))))
    ∧ ((extractFirstParagraph (jsTrim s)).length < 10 →
      parseRisksFromLLMResponse s = extractRisksFromText s) := by
  have hsec : sections s = [s] := by
    unfold sections
    rw [hh]
    simp [hst]
  have hrd : resolvedDesc (jsTrim s) = extractFirstParagraph (jsTrim s) := by
    simp [resolvedDesc, hd]
  have hrc : resolvedCat (jsTrim s) = "Operational Risks" := by
    simp [resolvedCat, hc]
  constructor
  · intro hlen
    have hcond : ¬(resolvedDesc (jsTrim s) = "" ∨ (resolvedDesc (jsTrim s)).length < 10) := by
      rw [hrd]
      push_neg
      refine ⟨?_, by omega⟩
      intro h
      rw [h] at hlen
      exact absurd hlen (by decide)
    have hps : parseRiskSection (jsTrim s) 1 = some (sectionRecord (jsTrim s) 1) := by
      unfold parseRiskSection
      rw [if_neg hcond]
    have ht2 : tier2Records s = [sectionRecord (jsTrim s) 1] := by
      unfold tier2Records
      rw [hsec]
      simp [tier2Aux, hps]
    refine ⟨sectionRecord (jsTrim s) 1, ?_, ?_, ?_⟩
    · simp [parseRisksFromLLMResponse, h1, hsec, ht2]
    · show Json.str (cleanText (resolvedCat (jsTrim s))) = .str "Operational Risks"
      rw [hrc]
      rfl
    · show Json.str (cleanText (resolvedDesc (jsTrim s)))
          = .str (cleanText (extractFirstParagraph (jsTrim s)))
      rw [hrd]
  · intro hlen
    have hcond : resolvedDesc (jsTrim s) = "" ∨ (resolvedDesc (jsTrim s)).length < 10 :=
      Or.inr (by rw [hrd]; omega)
    have hps : parseRiskSection (jsTrim s) 1 = none := by
      unfold parseRiskSection
      rw [if_pos hcond]
    have ht2 : tier2Records s = [] := by
      unfold tier2Records
      rw [hsec]
      simp [tier2Aux, hps]
    simp [parseRisksFromLLMResponse, h1, hsec, ht2]

/-- Witness for C10 at a plain unlabelled paragraph. -/
theorem C10_witness :
    ∃ r, parseRisksFromLLMResponse inPlainProse = [r]
      ∧ r.category = .str "Operational Risks"
      ∧ r.description = .str (cleanText (extractFirstParagraph (jsTrim inPlainProse))) :=
  (C10_amended inPlainProse rfl rfl (by decide) rfl rfl).1 (by decide)

/-! ### Counterexamples for C1, C2, C3, C5, C6, C10 -/

/-- C1, counterexample: `inEmptyRisks` is a syntactically valid JSON object
whose `risks` array (vacuously) has only truthy entries, yet the extractor
does not return 0 records: tier 1 pushes nothing, so control falls through
to the section tier, which returns one record built from the raw JSON
text. -/
theorem C1_counterexample :
    braceMatch inEmptyRisks = some inEmptyRisks
    ∧ jsonParse inEmptyRisks = some (.obj [("risks", .arr [])])
    ∧ (∀ e ∈ ([] : List Json),
        jsTruthy (getField e "description") = true ∧ jsTruthy (getField e "category") = true)
    ∧ (parseRisksFromLLMResponse inEmptyRisks).length = 1 := by
  refine ⟨rfl, rfl, ?_, rfl⟩
  intro e he
  exact absurd he (List.not_mem_nil e)

/-- C2, counterexample: on `inCleanupLoss` the extractor returns one record
whose description is the single character "x" (the ≥ 10 check ran before
`cleanText` stripped the leading enumeration number) and one record whose
category is the empty string (the captured ":" was erased by `cleanText`). -/
theorem C2_counterexample :
    (parseRisksFromLLMResponse inCleanupLoss).map Risk.description
        = [.str "x", .str "a sufficiently long description"]
    ∧ (parseRisksFromLLMResponse inCleanupLoss).map Risk.category
        = [.str "Operational Risks", .str ""]
    ∧ ("x" : String).length < 10 := ⟨rfl, rfl, by decide⟩

/-- C3, counterexample: on `inThrowAfterPush` the `null` entry makes tier 1
throw after its first push; the cached record and the section-tier record
are then concatenated, so the two returned ids are both "risk-1" — neither
pairwise distinct nor densely numbered. -/
theorem C3_counterexample :
    (parseRisksFromLLMResponse inThrowAfterPush).map Risk.id = ["risk-1", "risk-1"]
    ∧ ¬ ((parseRisksFromLLMResponse inThrowAfterPush).map Risk.id).Nodup := by
  refine ⟨rfl, ?_⟩
  rw [show (parseRisksFromLLMResponse inThrowAfterPush).map Risk.id
        = ["risk-1", "risk-1"] from rfl]
  decide

/-- C5, counterexample: `inNullFirst`'s brace block parses to a `risks`
array containing a valid entry, but the `null` entry before it makes the
property access throw, so tier 1 returns nothing and the extractor falls
through to the section tier instead of returning the tier-1 record. -/
theorem C5_counterexample :
    braceMatch inNullFirst = some inNullFirst
    ∧ jsonParse inNullFirst = some (.obj [("risks", .arr [.null, entryGood])])
    ∧ jsTruthy (getField entryGood "description") = true
    ∧ jsTruthy (getField entryGood "category") = true
    ∧ parseRisksFromLLMResponse inNullFirst ≠ [mkJsonRisk 1 entryGood] := by
  refine ⟨rfl, rfl, rfl, rfl, ?_⟩
  intro h
  have h2 := congrArg (List.map Risk.id) h
  rw [show (parseRisksFromLLMResponse inNullFirst).map Risk.id = ["risk-1"] from rfl,
      show ([mkJsonRisk 1 entryGood]).map Risk.id = ["risk-2"] from rfl,
      List.cons.injEq] at h2
  exact absurd h2.1 (by decide)

/-- C6, counterexample: three unrelated sentences, each shorter than 20
characters after trimming, with no brace block and no header boundary —
yet the extractor returns one record, because the whole input becomes the
single section and its first paragraph (the whole text) passes the ≥ 10
check. -/
theorem C6_counterexample :
    braceMatch inThreeSentences = none
    ∧ (∀ t ∈ sentenceSplit inThreeSentences, (jsTrim t).length < 20)
    ∧ headerSplit inThreeSentences = [inThreeSentences]
    ∧ (parseRisksFromLLMResponse inThreeSentences).length = 1 := by
  refine ⟨rfl, ?_, rfl, rfl⟩
  decide

/-- C10, counterexample: tier 1 yields nothing and the header regex finds
no boundary, the input is non-blank and its first paragraph is ≥ 10
characters — but the returned record's category is the captured label
text, not the claimed default "Operational Risks". -/
theorem C10_counterexample :
    tier1 inCategoryLabel = ([], false)
    ∧ headerSplit inCategoryLabel = [inCategoryLabel]
    ∧ jsTrim inCategoryLabel ≠ ""
    ∧ 10 ≤ (extractFirstParagraph (jsTrim inCategoryLabel)).length
    ∧ (parseRisksFromLLMResponse inCategoryLabel).map Risk.category
        = [.str "Financial loss likely"]
    ∧ Json.str "Financial loss likely" ≠ .str "Operational Risks" := by
  refine ⟨rfl, rfl, by decide, by decide, rfl, ?_⟩
  intro h
  rw [Json.str.injEq] at h
  exact absurd h (by decide)

end RiskAgent
